import Mathlib

/-!
Verification of the schema-validated output parser
(`langchain_core/output_parsers/pydantic.py`) and the fake embedding models
(`langchain_core/embeddings/fake.py`).

The Python `json` module, the pydantic validation layer and numpy's random
generator are third-party dependencies of the code under study; they are
modelled here by executable Lean functions.  JSON documents are modelled by
the inductive type `JValue`, in which arrays and objects are encoded as
cons-chains inside the same type so that every function on it is plain
structural recursion (and therefore computes by `rfl`/`decide`).
-/

/-! ## JSON values -/

/-- A JSON document.  `jarrCons h t` is the array with first element `h` and
remaining elements `t` (a `jarrNil`/`jarrCons` chain); `jobjCons k v t` is the
object with first member `k : v` and remaining members `t`. -/
inductive JValue where
  | jnull
  | jbool (b : Bool)
  | jint (n : Int)
  | jstr (s : String)
  | jarrNil
  | jarrCons (hd tl : JValue)
  | jobjNil
  | jobjCons (k : String) (v tl : JValue)
deriving DecidableEq, Repr

/-- Grammatical role of a subtree: a full value, the rest of an array after an
element, or the rest of an object after a member. -/
inductive JMode where
  | val
  | arrTail
  | objTail
deriving DecidableEq, Repr

/-- The double-quote character. -/
def qChar : Char := Char.ofNat 34

/-- The backslash character. -/
def bsChar : Char := Char.ofNat 92

/-- The opening-brace character. -/
def lbChar : Char := Char.ofNat 123

/-- The closing-brace character. -/
def rbChar : Char := Char.ofNat 125

/-- JSON whitespace. -/
def isWsC (c : Char) : Bool := c = ' ' || c = '\n' || c = '\t' || c = '\r'

/-- ASCII decimal digit. -/
def isDigitC (c : Char) : Bool := 48 ≤ c.toNat && c.toNat ≤ 57

/-- Drop leading JSON whitespace. -/
def skipWs : List Char → List Char
  | [] => []
  | c :: cs => if isWsC c then skipWs cs else c :: cs

/-- The digit character for `d < 10`. -/
def digitChar (d : Nat) : Char := Char.ofNat (48 + d)

/-- Decimal digits of `n`, most significant first; the fuel argument makes the
recursion structural (fuel `n + 1` always suffices). -/
def dumpNatAux : Nat → Nat → List Char
  | 0, _ => []
  | f + 1, n => if n < 10 then [digitChar n] else dumpNatAux f (n / 10) ++ [digitChar (n % 10)]

/-- Decimal digits of `n`, as Python's `str` of a non-negative int. -/
def dumpNat (n : Nat) : List Char := dumpNatAux (n + 1) n

/-- Python's `str` of an int: optional minus sign then decimal digits. -/
def dumpInt (n : Int) : List Char :=
  if n < 0 then '-' :: dumpNat n.natAbs else dumpNat n.toNat

/-- Lower-case hex digit. -/
def hexDigitChar (n : Nat) : Char :=
  if n < 10 then digitChar n else Char.ofNat (87 + n)

/-- How `json.dumps` (with its default `ensure_ascii=True`) renders one string
character: `"` and `\` get a backslash escape, anything outside printable
ASCII becomes a `\uXXXX` escape, and the rest stand for themselves. -/
def escChar (c : Char) : List Char :=
  if c = qChar then [bsChar, qChar]
  else if c = bsChar then [bsChar, bsChar]
  else if c.toNat < 32 || 126 < c.toNat then
    [bsChar, 'u', hexDigitChar (c.toNat / 4096 % 16), hexDigitChar (c.toNat / 256 % 16),
      hexDigitChar (c.toNat / 16 % 16), hexDigitChar (c.toNat % 16)]
  else [c]

/-- `escChar` over a whole string body. -/
def escList : List Char → List Char
  | [] => []
  | c :: cs => escChar c ++ escList cs

/-- A rendered string literal including its quotes. -/
def dumpKey (k : String) : List Char := qChar :: (escList k.data ++ [qChar])

/-- Model of `json.dumps` at the character level, with Python's default
separators (`", "` between items, `": "` after keys).  The mode says whether
the subtree is rendered as a full value or as the tail of an enclosing
array/object (ill-roled subtrees fall to the closing-bracket defaults; the
well-formedness predicate `wfW` rules them out). -/
def dumpA : JMode → JValue → List Char
  | .val, .jnull => ['n', 'u', 'l', 'l']
  | .val, .jbool true => ['t', 'r', 'u', 'e']
  | .val, .jbool false => ['f', 'a', 'l', 's', 'e']
  | .val, .jint n => dumpInt n
  | .val, .jstr s => qChar :: (escList s.data ++ [qChar])
  | .val, .jarrNil => ['[', ']']
  | .val, .jarrCons h t => '[' :: (dumpA .val h ++ dumpA .arrTail t)
  | .val, .jobjNil => [lbChar, rbChar]
  | .val, .jobjCons k v t => lbChar :: (dumpKey k ++ (':' :: ' ' :: (dumpA .val v ++ dumpA .objTail t)))
  | .arrTail, .jarrCons h t => ',' :: ' ' :: (dumpA .val h ++ dumpA .arrTail t)
  | .arrTail, _ => [']']
  | .objTail, .jobjCons k v t => ',' :: ' ' :: (dumpKey k ++ (':' :: ' ' :: (dumpA .val v ++ dumpA .objTail t)))
  | .objTail, _ => [rbChar]

/-- Model of `json.dumps`. -/
def json_dumps (v : JValue) : String := String.mk (dumpA .val v)

/-- Build a JSON object from an association list of members. -/
def ofFields : List (String × JValue) → JValue
  | [] => .jobjNil
  | (k, v) :: t => .jobjCons k v (ofFields t)

/-- Build a JSON array from a list of elements. -/
def ofElems : List JValue → JValue
  | [] => .jarrNil
  | v :: t => .jarrCons v (ofElems t)

/-- Find the value of the first member with the given key. -/
def objLookup (k : String) : JValue → Option JValue
  | .jobjCons k2 v t => if k2 == k then some v else objLookup k t
  | _ => none

/-! ## JSON parsing (model of `json.loads`) -/

/-- Accumulate a run of decimal digits onto `acc`; stops at the first
non-digit. -/
def parseDigitsAux : List Char → Nat → Nat × List Char
  | [], acc => (acc, [])
  | c :: cs, acc =>
    if isDigitC c then parseDigitsAux cs (acc * 10 + (c.toNat - 48)) else (acc, c :: cs)

/-- Parse an optionally-signed run of decimal digits (the integer fragment of
the JSON number grammar). -/
def parseNum : List Char → Option (Int × List Char)
  | [] => none
  | c :: cs =>
    if c = '-' then
      match cs with
      | d :: _ =>
        if isDigitC d then
          some (-((parseDigitsAux cs 0).1 : Int), (parseDigitsAux cs 0).2)
        else none
      | [] => none
    else if isDigitC c then
      some (((parseDigitsAux (c :: cs) 0).1 : Int), (parseDigitsAux (c :: cs) 0).2)
    else none

/-- Decode one backslash escape. -/
def unescChar (c : Char) : Option Char :=
  if c = qChar then some qChar
  else if c = bsChar then some bsChar
  else if c = '/' then some '/'
  else if c = 'n' then some '\n'
  else if c = 't' then some '\t'
  else if c = 'r' then some '\r'
  else if c = 'b' then some (Char.ofNat 8)
  else if c = 'f' then some (Char.ofNat 12)
  else none

/-- Parse a string body after the opening quote, up to and including the
closing quote. -/
def parseStrBody : List Char → Option (List Char × List Char)
  | [] => none
  | c :: cs =>
    if c = qChar then some ([], cs)
    else if c = bsChar then
      match cs with
      | [] => none
      | e :: cs2 =>
        match unescChar e with
        | some d =>
          match parseStrBody cs2 with
          | some (s, r) => some (d :: s, r)
          | none => none
        | none => none
    else
      match parseStrBody cs with
      | some (s, r) => some (c :: s, r)
      | none => none

/-- The JSON parser.  One function, structurally recursive on a fuel counter,
covering all three grammatical roles so that it computes by `rfl`:
`.val` parses a value, `.arrTail` parses `, v , w … ]`, `.objTail` parses
`, "k": v … }`. -/
def parseM : Nat → JMode → List Char → Option (JValue × List Char)
  | 0, _, _ => none
  | fuel + 1, .val, cs =>
    match skipWs cs with
    | [] => none
    | c :: rest =>
      if c = 'n' then
        match rest with
        | 'u' :: 'l' :: 'l' :: r => some (.jnull, r)
        | _ => none
      else if c = 't' then
        match rest with
        | 'r' :: 'u' :: 'e' :: r => some (.jbool true, r)
        | _ => none
      else if c = 'f' then
        match rest with
        | 'a' :: 'l' :: 's' :: 'e' :: r => some (.jbool false, r)
        | _ => none
      else if c = '[' then
        match skipWs rest with
        | c2 :: r2 =>
          if c2 = ']' then some (.jarrNil, r2)
          else
            match parseM fuel .val (c2 :: r2) with
            | some (v, r3) =>
              match parseM fuel .arrTail r3 with
              | some (t, r4) => some (.jarrCons v t, r4)
              | none => none
            | none => none
        | [] => none
      else if c = lbChar then
        match skipWs rest with
        | c2 :: r2 =>
          if c2 = rbChar then some (.jobjNil, r2)
          else if c2 = qChar then
            match parseStrBody r2 with
            | some (k, r3) =>
              match skipWs r3 with
              | ':' :: r4 =>
                match parseM fuel .val r4 with
                | some (v, r5) =>
                  match parseM fuel .objTail r5 with
                  | some (t, r6) => some (.jobjCons (String.mk k) v t, r6)
                  | none => none
                | none => none
              | _ => none
            | none => none
          else none
        | [] => none
      else if c = qChar then
        match parseStrBody rest with
        | some (s, r2) => some (.jstr (String.mk s), r2)
        | none => none
      else
        match parseNum (c :: rest) with
        | some (n, r2) => some (.jint n, r2)
        | none => none
  | fuel + 1, .arrTail, cs =>
    match skipWs cs with
    | c :: rest =>
      if c = ']' then some (.jarrNil, rest)
      else if c = ',' then
        match parseM fuel .val rest with
        | some (v, r1) =>
          match parseM fuel .arrTail r1 with
          | some (t, r2) => some (.jarrCons v t, r2)
          | none => none
        | none => none
      else none
    | [] => none
  | fuel + 1, .objTail, cs =>
    match skipWs cs with
    | c :: rest =>
      if c = rbChar then some (.jobjNil, rest)
      else if c = ',' then
        match skipWs rest with
        | c2 :: r2 =>
          if c2 = qChar then
            match parseStrBody r2 with
            | some (k, r3) =>
              match skipWs r3 with
              | ':' :: r4 =>
                match parseM fuel .val r4 with
                | some (v, r5) =>
                  match parseM fuel .objTail r5 with
                  | some (t, r6) => some (.jobjCons (String.mk k) v t, r6)
                  | none => none
                | none => none
              | _ => none
            | none => none
          else none
        | [] => none
      else none
    | [] => none

/-- Model of `json.loads`: parse one complete document, rejecting trailing
data, with an error string naming the failure as the Python decoder does. -/
def json_loads (s : String) : Except String JValue :=
  match parseM (s.data.length + 1) .val s.data with
  | some (v, r) => if skipWs r = [] then .ok v else .error "Extra data"
  | none => .error "Expecting value"

/-! ## Well-formedness of the chain encoding -/

/-- Printable-ASCII character (the fragment of Python strings over which the
escape model is proven inverse). -/
def asciiOk (c : Char) : Bool := 32 ≤ c.toNat && c.toNat ≤ 126

/-- All characters printable ASCII. -/
def strAsciiOk (s : String) : Bool := s.data.all asciiOk

/-- Shape/charset well-formedness of a subtree in a given role: array tails
really are array chains, object tails really are object chains, and every
string (including keys) is printable ASCII. -/
def wfW : JMode → JValue → Bool
  | .val, .jnull => true
  | .val, .jbool _ => true
  | .val, .jint _ => true
  | .val, .jstr s => strAsciiOk s
  | .val, .jarrNil => true
  | .val, .jarrCons h t => wfW .val h && wfW .arrTail t
  | .val, .jobjNil => true
  | .val, .jobjCons k v t => strAsciiOk k && wfW .val v && wfW .objTail t
  | .arrTail, .jarrNil => true
  | .arrTail, .jarrCons h t => wfW .val h && wfW .arrTail t
  | .arrTail, _ => false
  | .objTail, .jobjNil => true
  | .objTail, .jobjCons k v t => strAsciiOk k && wfW .val v && wfW .objTail t
  | .objTail, _ => false

/-- Fuel needed by `parseM` on the rendering of a subtree. -/
def needJ : JValue → Nat
  | .jarrCons h t => 1 + needJ h + needJ t
  | .jobjCons _ v t => 1 + needJ v + needJ t
  | _ => 1

/-- A remainder that cannot extend a rendered integer: empty or starting with
a non-digit. -/
def delimOk : List Char → Bool
  | [] => true
  | c :: _ => !isDigitC c

/-! ## Model of the pydantic layer

The parser's `pydantic_object` is a class of the pydantic library.  Only the
behaviour the source relies on is modelled: a class has a `__name__`, a list
of declared fields (name, type annotation, required flag), and is either a
pydantic-v2 `BaseModel` subclass, a pydantic-v1 `BaseModel` subclass, or
neither. -/

/-- The field annotations needed by the claims: `str`, `int`, `bool`, and
`list[str]` (the spec's example schema `{foo: array of string}`). -/
inductive FieldType where
  | fstr
  | fint
  | fbool
  | farrStr
deriving DecidableEq, Repr

/-- Is the whole chain an array of strings? -/
def allStrChain : JValue → Bool
  | .jarrNil => true
  | .jarrCons h t => (match h with | .jstr _ => true | _ => false) && allStrChain t
  | _ => false

/-- Does the decoded JSON value satisfy the field annotation? -/
def typeOk : FieldType → JValue → Bool
  | .fstr, .jstr _ => true
  | .fint, .jint _ => true
  | .fbool, .jbool _ => true
  | .farrStr, v => allStrChain v
  | _, _ => false

/-- All strings in an array-of-strings chain are printable ASCII. -/
def allStrAsciiChain : JValue → Bool
  | .jarrCons (.jstr s) t => strAsciiOk s && allStrAsciiChain t
  | .jarrCons _ t => allStrAsciiChain t
  | _ => true

/-- All strings inside a value of the given annotation are printable ASCII. -/
def valAsciiOk : FieldType → JValue → Bool
  | .fstr, .jstr s => strAsciiOk s
  | .farrStr, v => allStrAsciiChain v
  | _, _ => true

/-- A declared pydantic model field. -/
structure SField where
  name : String
  ty : FieldType
  required : Bool
deriving DecidableEq, Repr

/-- Which pydantic base class (if any) the configured class subclasses. -/
inductive PydVersion where
  | v2
  | v1
  | other
deriving DecidableEq, Repr

/-- Model of a pydantic model class. -/
structure PydClass where
  name : String
  fields : List SField
  version : PydVersion
deriving DecidableEq, Repr

/-- A validated model instance: one value per declared field, in declaration
order (optional fields absent from the input get pydantic's `None` default,
modelled as `jnull`). -/
def validateFields (fields : List SField) (d : JValue) : Except String (List (String × JValue)) :=
  match fields with
  | [] => .ok []
  | f :: fs =>
    match objLookup f.name d with
    | some v =>
      if typeOk f.ty v then
        match validateFields fs d with
        | .ok rest => .ok ((f.name, v) :: rest)
        | .error e => .error e
      else .error ("Input should be a valid " ++ f.name)
    | none =>
      if f.required then .error ("Field required: " ++ f.name)
      else
        match validateFields fs d with
        | .ok rest => .ok ((f.name, .jnull) :: rest)
        | .error e => .error e

/-- Model of pydantic v2 `Model.model_validate`: the input must be a dict and
every declared field must validate. -/
def model_validate (C : PydClass) (obj : JValue) : Except String (List (String × JValue)) :=
  match obj with
  | .jobjNil => validateFields C.fields obj
  | .jobjCons _ _ _ => validateFields C.fields obj
  | _ => .error "Input should be a valid dictionary"

/-- Model of pydantic v1 `Model.parse_obj` (same validation discipline at the
granularity the claims need). -/
def parse_obj_v1 (C : PydClass) (obj : JValue) : Except String (List (String × JValue)) :=
  match obj with
  | .jobjNil => validateFields C.fields obj
  | .jobjCons _ _ _ => validateFields C.fields obj
  | _ => .error "value is not a valid dict"

/-- Does the association list `o` conform to the class's schema: exactly the
declared field names in declaration order, each value satisfying its
annotation?  (This is the shape in which a conforming instance serializes.) -/
def conforms (C : PydClass) (o : List (String × JValue)) : Bool :=
  (o.map Prod.fst == C.fields.map SField.name)
    && (C.fields.zip o).all fun fp => typeOk fp.1.ty fp.2.2

/-! ## Model of the langchain layer

`langchain_core.exceptions.OutputParserException` and
`langchain_core.output_parsers.JsonOutputParser` are code of this repository
that is not part of the excerpt; they are modelled from the spec below. -/

/-- Modelled from the spec: the single descriptive failure type
(`OutputParserException`), carrying a human-readable message and optionally
the offending JSON-serialized text (`llm_output`). -/
structure OutputParserException where
  msg : String
  llm_output : Option String
deriving DecidableEq, Repr

/-- One candidate generation from the upstream LLM. -/
structure Generation where
  text : String
deriving DecidableEq, Repr

/-- `langchain_core.utils.pydantic.PYDANTIC_MAJOR_VERSION` in an environment
with pydantic 2 installed. -/
def PYDANTIC_MAJOR_VERSION : Nat := 2

/-- The parser under study: its only configuration is the pydantic class. -/
structure PydanticOutputParser where
  pydantic_object : PydClass
deriving DecidableEq, Repr

/-- What Python's `repr` of `self.pydantic_object.__class__` produces: the
metaclass of the configured class (for a non-pydantic class, plain `type`). -/
def classRepr (C : PydClass) : String :=
  match C.version with
  | .v2 => "<class 'pydantic._internal._model_construction.ModelMetaclass'>"
  | .v1 => "<class 'pydantic.v1.main.ModelMetaclass'>"
  | .other => "<class 'type'>"

/-- `PydanticOutputParser._parser_exception`: wrap a validation error into an
`OutputParserException` whose message embeds the class name and the offending
JSON re-serialized, and whose `llm_output` carries that JSON string. -/
def PydanticOutputParser._parser_exception (p : PydanticOutputParser) (e : String)
    (json_object : JValue) : OutputParserException :=
  let json_string := json_dumps json_object
  let name := p.pydantic_object.name
  ⟨"Failed to parse " ++ name ++ " from completion " ++ json_string ++ ". Got: " ++ e,
    some json_string⟩

/-- `PydanticOutputParser._parse_obj`, parameterized by the pydantic major
version the module-level constant reports: under pydantic 2, dispatch on
which base class the configured class subclasses, translating validation
errors through `_parser_exception`; a class that subclasses neither raises
the unsupported-model-version `OutputParserException` directly. -/
def PydanticOutputParser._parse_obj (pmv : Nat) (p : PydanticOutputParser) (obj : JValue) :
    Except OutputParserException (List (String × JValue)) :=
  if pmv = 2 then
    match p.pydantic_object.version with
    | .v2 =>
      match model_validate p.pydantic_object obj with
      | .ok m => .ok m
      | .error e => .error (p._parser_exception e obj)
    | .v1 =>
      match parse_obj_v1 p.pydantic_object obj with
      | .ok m => .ok m
      | .error e => .error (p._parser_exception e obj)
    | .other =>
      .error ⟨"Unsupported model version for PydanticOutputParser: " ++ classRepr p.pydantic_object,
        none⟩
  else
    match parse_obj_v1 p.pydantic_object obj with
    | .ok m => .ok m
    | .error e => .error (p._parser_exception e obj)

/-- Modelled from the spec: best-effort parse of incomplete JSON
(`parse_partial_json`) — accept the document as is, or after closing the
brackets (and any unterminated string) still open at its end. -/
def scanOpen : List Char → Bool → List Char → List Char
  | [], inStr, stack => if inStr then qChar :: stack else stack
  | c :: cs, true, stack =>
    if c = bsChar then
      match cs with
      | [] => qChar :: stack
      | _ :: cs2 => scanOpen cs2 true stack
    else if c = qChar then scanOpen cs false stack
    else scanOpen cs true stack
  | c :: cs, false, stack =>
    if c = qChar then scanOpen cs true stack
    else if c = lbChar then scanOpen cs false (rbChar :: stack)
    else if c = '[' then scanOpen cs false (']' :: stack)
    else if c = rbChar || c = ']' then scanOpen cs false stack.tail
    else scanOpen cs false stack

/-- Modelled from the spec: `parse_partial_json` — strict parse first, then a
best-effort completion of the truncated document. -/
def parse_partial_json (s : String) : Option JValue :=
  match json_loads s with
  | .ok v => some v
  | .error _ =>
    match json_loads (String.mk (s.data ++ scanOpen s.data false [])) with
    | .ok v => some v
    | .error _ => none

/-- Modelled from the spec: `JsonOutputParser.parse_result` — decode the
first/most relevant generation; in partial mode accept a best-effort partial
object (`pflag` models the `partial` keyword argument), otherwise fail with a
descriptive error carrying the text and the decode error. -/
def JsonOutputParser.parse_result (result : List Generation) (pflag : Bool) :
    Except OutputParserException JValue :=
  match result with
  | [] => .error ⟨"No generations to parse", none⟩
  | g :: _ =>
    if pflag then
      match parse_partial_json g.text with
      | some v => .ok v
      | none => .ok .jnull
    else
      match json_loads g.text with
      | .ok v => .ok v
      | .error e => .error ⟨"Invalid json output: " ++ g.text ++ ". Got: " ++ e, none⟩

/-- `PydanticOutputParser.parse_result`: the source calls
`super().parse_result(result)` — without forwarding the `partial` flag — and
then validates the decoded JSON against the pydantic class. -/
def PydanticOutputParser.parse_result (p : PydanticOutputParser) (result : List Generation)
    (pflag : Bool) : Except OutputParserException (List (String × JValue)) :=
  match JsonOutputParser.parse_result result false with
  | .ok json_object => p._parse_obj PYDANTIC_MAJOR_VERSION json_object
  | .error e => .error e

/-- `PydanticOutputParser.parse`: the source defers to `super().parse(text)`.
Modelled from the spec: the JSON parser's `parse` wraps the text as a single
generation and dispatches (dynamically) back to `parse_result`. -/
def PydanticOutputParser.parse (p : PydanticOutputParser) (text : String) :
    Except OutputParserException (List (String × JValue)) :=
  p.parse_result [⟨text⟩] false

/-! ## `get_format_instructions` -/

/-- The JSON-schema fragment pydantic generates for one field annotation. -/
def fieldSchema (f : SField) : JValue :=
  match f.ty with
  | .fstr => ofFields [("title", .jstr f.name), ("type", .jstr "string")]
  | .fint => ofFields [("title", .jstr f.name), ("type", .jstr "integer")]
  | .fbool => ofFields [("title", .jstr f.name), ("type", .jstr "boolean")]
  | .farrStr =>
    ofFields [("title", .jstr f.name), ("type", .jstr "array"),
      ("items", ofFields [("type", .jstr "string")])]

/-- Model of `pydantic_object.schema()`: the JSON-schema dict with its
`title`, `type`, `properties` and (when any field is required) `required`
entries. -/
def PydClass.schemaDict (C : PydClass) : List (String × JValue) :=
  [("title", .jstr C.name), ("type", .jstr "object"),
    ("properties", ofFields (C.fields.map fun f => (f.name, fieldSchema f)))]
  ++ (if (C.fields.filter fun f => f.required) = [] then []
      else [("required", ofElems ((C.fields.filter fun f => f.required).map
        fun f => JValue.jstr f.name))])

/-- Python `k in d` on the modelled dict. -/
def hasKey (k : String) (d : List (String × JValue)) : Bool :=
  d.any fun kv => kv.1 == k

/-- Python `del d[k]` on the modelled dict. -/
def delKey (k : String) (d : List (String × JValue)) : List (String × JValue) :=
  d.filter fun kv => kv.1 != k

/-- The format-instructions template up to the `{schema}` placeholder, with
`str.format`'s `\x7b\x7b`/`\x7d\x7d` unescaped to literal braces. -/
def instrHead : String :=
  "The output should be formatted as a JSON instance that conforms to the JSON schema below.\n\nAs an example, for the schema \x7b\"properties\": \x7b\"foo\": \x7b\"title\": \"Foo\", \"description\": \"a list of strings\", \"type\": \"array\", \"items\": \x7b\"type\": \"string\"\x7d\x7d\x7d, \"required\": [\"foo\"]\x7d\nthe object \x7b\"foo\": [\"bar\", \"baz\"]\x7d is a well-formatted instance of the schema. The object \x7b\"properties\": \x7b\"foo\": [\"bar\", \"baz\"]\x7d\x7d is not well-formatted.\n\nHere is the output schema:\n```\n"

/-- The format-instructions template after the `{schema}` placeholder. -/
def instrTail : String := "\n```"

/-- `PydanticOutputParser.get_format_instructions`: copy the schema dict,
delete the extraneous top-level `title` and `type` keys from the copy,
serialize, and splice into the fixed template. -/
def PydanticOutputParser.get_format_instructions (p : PydanticOutputParser) : String :=
  let schema := (p.pydantic_object.schemaDict).map id
  let reduced_schema := schema
  let reduced_schema :=
    if hasKey "title" reduced_schema then delKey "title" reduced_schema else reduced_schema
  let reduced_schema :=
    if hasKey "type" reduced_schema then delKey "type" reduced_schema else reduced_schema
  let schema_str := json_dumps (ofFields reduced_schema)
  instrHead ++ schema_str ++ instrTail

/-- The observable state of a parser instance: the configured class (the
source's only instance attribute). -/
structure ParserState where
  pydantic_object : PydClass
deriving DecidableEq, Repr

/-- `get_format_instructions` as a state transformer: the source's dict
comprehension copies `self.pydantic_object.schema()` before the `del`s, so
the deletions touch only the copy and the parser state passes through. -/
def ParserState.get_format_instructions_run (st : ParserState) : String × ParserState :=
  (PydanticOutputParser.get_format_instructions ⟨st.pydantic_object⟩, st)

/-! ## Model of the fake embeddings (`langchain_core/embeddings/fake.py`)

numpy's global random generator is modelled as a `Nat` state threaded through
every call; one normal draw is modelled as a state-derived integer (the
distribution itself is irrelevant to the claims). -/

/-- Model of advancing numpy's global generator by one draw. -/
def nextState (s : Nat) : Nat := (1103515245 * s + 12345) % 2 ^ 31

/-- Model of the value of one `np.random.normal()` draw at state `s`. -/
def normalVal (s : Nat) : Int := (s : Int)

/-- Model of `np.random.normal(size=k)` from state `s`: `k` draws and the
advanced state. -/
def npNormalDraws : Nat → Nat → List Int × Nat
  | 0, s => ([], s)
  | k + 1, s =>
    let v := normalVal s
    let rest := npNormalDraws k (nextState s)
    (v :: rest.1, rest.2)

/-- `FakeEmbeddings`: vectors drawn from the current generator state. -/
structure FakeEmbeddings where
  size : Nat
deriving DecidableEq, Repr

/-- `FakeEmbeddings._get_embedding`: `list(np.random.normal(size=self.size))`. -/
def FakeEmbeddings._get_embedding (m : FakeEmbeddings) (g : Nat) : List Int × Nat :=
  npNormalDraws m.size g

/-- `FakeEmbeddings.embed_documents`: one embedding per input text. -/
def FakeEmbeddings.embed_documents (m : FakeEmbeddings) (texts : List String) (g : Nat) :
    List (List Int) × Nat :=
  match texts with
  | [] => ([], g)
  | _ :: ts =>
    let e := m._get_embedding g
    let rest := m.embed_documents ts e.2
    (e.1 :: rest.1, rest.2)

/-- `FakeEmbeddings.embed_query`. -/
def FakeEmbeddings.embed_query (m : FakeEmbeddings) (text : String) (g : Nat) :
    List Int × Nat :=
  m._get_embedding g

/-- `DeterministicFakeEmbedding`: vectors seeded from the text's hash. -/
structure DeterministicFakeEmbedding where
  size : Nat
deriving DecidableEq, Repr

/-- Stand-in for `int(hashlib.sha256(text.encode("utf-8")).hexdigest(), 16)`:
a concrete deterministic integer hash of the text (the claims depend only on
its determinism). -/
def sha256int (t : String) : Nat :=
  t.data.foldl (fun a c => (a * 131 + c.toNat + 7) % 2 ^ 256) 5381

/-- `DeterministicFakeEmbedding._get_seed`: hash of the text, reduced
`mod 10^8`. -/
def DeterministicFakeEmbedding._get_seed (m : DeterministicFakeEmbedding) (text : String) : Nat :=
  sha256int text % 10 ^ 8

/-- `DeterministicFakeEmbedding._get_embedding`: `np.random.seed(seed)`
overwrites the incoming generator state, then the draws proceed from the
seed. -/
def DeterministicFakeEmbedding._get_embedding (m : DeterministicFakeEmbedding) (seed : Nat)
    (g : Nat) : List Int × Nat :=
  npNormalDraws m.size seed

/-- `DeterministicFakeEmbedding.embed_documents`. -/
def DeterministicFakeEmbedding.embed_documents (m : DeterministicFakeEmbedding)
    (texts : List String) (g : Nat) : List (List Int) × Nat :=
  match texts with
  | [] => ([], g)
  | t :: ts =>
    let e := m._get_embedding (m._get_seed t) g
    let rest := m.embed_documents ts e.2
    (e.1 :: rest.1, rest.2)

/-- `DeterministicFakeEmbedding.embed_query`. -/
def DeterministicFakeEmbedding.embed_query (m : DeterministicFakeEmbedding) (text : String)
    (g : Nat) : List Int × Nat :=
  m._get_embedding (m._get_seed text) g

/-! ## Digit and number lemmas -/

/-- Concrete facts about digit characters needed to steer the parser. -/
theorem digitChar_facts (d : Nat) (h : d < 10) :
    (digitChar d).toNat = 48 + d ∧ isDigitC (digitChar d) = true ∧
    isWsC (digitChar d) = false ∧ digitChar d ≠ 'n' ∧ digitChar d ≠ 't' ∧
    digitChar d ≠ 'f' ∧ digitChar d ≠ '[' ∧ digitChar d ≠ lbChar ∧
    digitChar d ≠ qChar ∧ digitChar d ≠ '-' ∧ digitChar d ≠ ']' ∧
    digitChar d ≠ ',' ∧ digitChar d ≠ rbChar := by
  interval_cases d <;> decide

/-- At a delimiter, digit accumulation stops. -/
theorem parseDigitsAux_stop {cs : List Char} (h : delimOk cs = true) (acc : Nat) :
    parseDigitsAux cs acc = (acc, cs) := by
  cases cs with
  | nil => rfl
  | cons c t =>
    simp only [delimOk, Bool.not_eq_true'] at h
    simp [parseDigitsAux, h]

/-- Digit accumulation over a rendered digit run shifts the accumulator. -/
theorem parseDigitsAux_dumpNatAux (f : Nat) : ∀ (n acc : Nat) (rest : List Char), n < f →
    parseDigitsAux (dumpNatAux f n ++ rest) acc
      = parseDigitsAux rest (acc * 10 ^ (dumpNatAux f n).length + n) := by
  induction f with
  | zero => intro n _ _ h; exact absurd h (Nat.not_lt_zero n)
  | succ f ih =>
    intro n acc rest h
    by_cases h10 : n < 10
    · obtain ⟨ht, hd, -⟩ := digitChar_facts n h10
      simp [dumpNatAux, h10, parseDigitsAux, hd, ht]
    · obtain ⟨htm, hdm, -⟩ := digitChar_facts (n % 10) (Nat.mod_lt _ (by omega))
      have hstep := ih (n / 10) acc (digitChar (n % 10) :: rest) (by omega)
      simp only [dumpNatAux, if_neg h10, List.append_assoc, List.cons_append, List.nil_append]
      rw [hstep]
      simp only [parseDigitsAux, hdm, if_pos, htm]
      have harg : (acc * 10 ^ (dumpNatAux f (n / 10)).length + n / 10) * 10 + (48 + n % 10 - 48)
      = acc * 10 ^ (dumpNatAux f (n / 10) ++ [digitChar (n % 10)]).length + n := by
        simp only [List.length_append, List.length_cons, List.length_nil, pow_succ]
        have hdm2 : 10 * (n / 10) + n % 10 = n := Nat.div_add_mod n 10
        have hexp : (acc * 10 ^ (dumpNatAux f (n / 10)).length + n / 10) * 10
            = acc * (10 ^ (dumpNatAux f (n / 10)).length * 10) + (n / 10) * 10 := by ring
        omega
      rw [harg]

/-- A rendered digit run is nonempty and starts with a digit character. -/
theorem dumpNatAux_cons (f : Nat) : ∀ n, n < f →
    ∃ d t, dumpNatAux f n = digitChar d :: t ∧ d < 10 := by
  induction f with
  | zero => intro n h; exact absurd h (Nat.not_lt_zero n)
  | succ f ih =>
    intro n h
    by_cases h10 : n < 10
    · exact ⟨n, [], by simp [dumpNatAux, h10], h10⟩
    · obtain ⟨d, t, heq, hd⟩ := ih (n / 10) (by omega)
      exact ⟨d, t ++ [digitChar (n % 10)], by simp [dumpNatAux, h10, heq], hd⟩

/-- The integer renderer/parser round-trip, up to a non-digit remainder. -/
theorem parseNum_dumpInt (n : Int) (rest : List Char) (hr : delimOk rest = true) :
    parseNum (dumpInt n ++ rest) = some (n, rest) := by
  by_cases hn : n < 0
  · obtain ⟨d, t, heq, hd10⟩ := dumpNatAux_cons (n.natAbs + 1) n.natAbs (Nat.lt_succ_self _)
    obtain ⟨-, hdig, -⟩ := digitChar_facts d hd10
    have hds := parseDigitsAux_dumpNatAux (n.natAbs + 1) n.natAbs 0 rest (Nat.lt_succ_self _)
    have hcons : dumpNatAux (n.natAbs + 1) n.natAbs ++ rest = digitChar d :: (t ++ rest) := by
      rw [heq]; simp
    rw [dumpInt, if_pos hn, List.cons_append, dumpNat, hcons]
    rw [show parseNum ('-' :: (digitChar d :: (t ++ rest)))
        = if isDigitC (digitChar d) then
            some (-((parseDigitsAux (digitChar d :: (t ++ rest)) 0).1 : Int),
              (parseDigitsAux (digitChar d :: (t ++ rest)) 0).2)
          else none from rfl]
    rw [if_pos hdig, ← hcons, hds, parseDigitsAux_stop hr]
    simp only [zero_mul, zero_add]
    have hval : -((n.natAbs : Int)) = n := by omega
    rw [hval]
  · obtain ⟨d, t, heq, hd10⟩ := dumpNatAux_cons (n.toNat + 1) n.toNat (Nat.lt_succ_self _)
    obtain ⟨-, hdig, -, -, -, -, -, -, -, hnm, -⟩ := digitChar_facts d hd10
    have hds := parseDigitsAux_dumpNatAux (n.toNat + 1) n.toNat 0 rest (Nat.lt_succ_self _)
    have hcons : dumpNatAux (n.toNat + 1) n.toNat ++ rest = digitChar d :: (t ++ rest) := by
      rw [heq]; simp
    rw [dumpInt, if_neg hn, dumpNat, hcons]
    rw [show parseNum (digitChar d :: (t ++ rest))
        = if digitChar d = '-' then
            match t ++ rest with
            | e :: _ =>
              if isDigitC e then
                some (-((parseDigitsAux (t ++ rest) 0).1 : Int), (parseDigitsAux (t ++ rest) 0).2)
              else none
            | [] => none
          else if isDigitC (digitChar d) then
            some (((parseDigitsAux (digitChar d :: (t ++ rest)) 0).1 : Int),
              (parseDigitsAux (digitChar d :: (t ++ rest)) 0).2)
          else none from rfl]
    rw [if_neg hnm, if_pos hdig, ← hcons, hds, parseDigitsAux_stop hr]
    simp only [zero_mul, zero_add]
    have hval : ((n.toNat : Int)) = n := by omega
    rw [hval]

/-! ## Whitespace and string lemmas -/

/-- `skipWs` is the identity on input that does not start with whitespace. -/
theorem skipWs_not_ws {c : Char} (h : isWsC c = false) (l : List Char) :
    skipWs (c :: l) = c :: l := by
  simp [skipWs, h]

/-- `skipWs` eats one leading space. -/
theorem skipWs_space (l : List Char) : skipWs (' ' :: l) = skipWs l := by
  simp [skipWs, isWsC]

/-- The string-body parser undoes the escaper on printable-ASCII strings. -/
theorem parseStrBody_escList : ∀ (cs : List Char), cs.all asciiOk = true → ∀ rest,
    parseStrBody (escList cs ++ (qChar :: rest)) = some (cs, rest) := by
  intro cs
  induction cs with
  | nil =>
    intro _ rest
    show parseStrBody (qChar :: rest) = some ([], rest)
    rw [parseStrBody.eq_def]
    simp
  | cons c t ih =>
    intro hall rest
    simp only [List.all_cons, Bool.and_eq_true] at hall
    obtain ⟨hc, ht⟩ := hall
    have hbq : ¬(bsChar = qChar) := by decide
    by_cases hq : c = qChar
    · subst hq
      have hesc : escChar qChar = [bsChar, qChar] := by decide
      rw [show escList (qChar :: t) = escChar qChar ++ escList t from rfl, hesc]
      rw [show ([bsChar, qChar] ++ escList t) ++ (qChar :: rest)
          = bsChar :: qChar :: (escList t ++ (qChar :: rest)) from by simp]
      rw [parseStrBody.eq_def]
      simp [hbq, unescChar, ih ht rest]
    · by_cases hb : c = bsChar
      · subst hb
        have hesc : escChar bsChar = [bsChar, bsChar] := by decide
        rw [show escList (bsChar :: t) = escChar bsChar ++ escList t from rfl, hesc]
        rw [show ([bsChar, bsChar] ++ escList t) ++ (qChar :: rest)
            = bsChar :: bsChar :: (escList t ++ (qChar :: rest)) from by simp]
        rw [parseStrBody.eq_def]
        simp [hbq, unescChar, ih ht rest]
      · have hrange : ¬((c.toNat < 32 || 126 < c.toNat) = true) := by
          simp only [asciiOk, Bool.and_eq_true, decide_eq_true_eq] at hc
          simp only [Bool.or_eq_true, decide_eq_true_eq, not_or]
          omega
        have hesc : escChar c = [c] := by
          rw [escChar, if_neg hq, if_neg hb, if_neg hrange]
        rw [show escList (c :: t) = escChar c ++ escList t from rfl, hesc]
        rw [show ([c] ++ escList t) ++ (qChar :: rest)
            = c :: (escList t ++ (qChar :: rest)) from by simp]
        rw [parseStrBody.eq_def]
        simp [hq, hb, ih ht rest]

/-! ## Parser step lemmas (definitional unfoldings at successor fuel) -/

/-- One-step unfolding of the value parser. -/
theorem parseM_val_step (g : Nat) (cs : List Char) :
    parseM (g + 1) .val cs
      = match skipWs cs with
        | [] => none
        | c :: rest =>
          if c = 'n' then
            match rest with
            | 'u' :: 'l' :: 'l' :: r => some (.jnull, r)
            | _ => none
          else if c = 't' then
            match rest with
            | 'r' :: 'u' :: 'e' :: r => some (.jbool true, r)
            | _ => none
          else if c = 'f' then
            match rest with
            | 'a' :: 'l' :: 's' :: 'e' :: r => some (.jbool false, r)
            | _ => none
          else if c = '[' then
            match skipWs rest with
            | c2 :: r2 =>
              if c2 = ']' then some (.jarrNil, r2)
              else
                match parseM g .val (c2 :: r2) with
                | some (v, r3) =>
                  match parseM g .arrTail r3 with
                  | some (t, r4) => some (.jarrCons v t, r4)
                  | none => none
                | none => none
            | [] => none
          else if c = lbChar then
            match skipWs rest with
            | c2 :: r2 =>
              if c2 = rbChar then some (.jobjNil, r2)
              else if c2 = qChar then
                match parseStrBody r2 with
                | some (k, r3) =>
                  match skipWs r3 with
                  | ':' :: r4 =>
                    match parseM g .val r4 with
                    | some (v, r5) =>
                      match parseM g .objTail r5 with
                      | some (t, r6) => some (.jobjCons (String.mk k) v t, r6)
                      | none => none
                    | none => none
                  | _ => none
                | none => none
              else none
            | [] => none
          else if c = qChar then
            match parseStrBody rest with
            | some (s, r2) => some (.jstr (String.mk s), r2)
            | none => none
          else
            match parseNum (c :: rest) with
            | some (n, r2) => some (.jint n, r2)
            | none => none := rfl

/-- One-step unfolding of the array-tail parser. -/
theorem parseM_arrTail_step (g : Nat) (cs : List Char) :
    parseM (g + 1) .arrTail cs
      = match skipWs cs with
        | c :: rest =>
          if c = ']' then some (.jarrNil, rest)
          else if c = ',' then
            match parseM g .val rest with
            | some (v, r1) =>
              match parseM g .arrTail r1 with
              | some (t, r2) => some (.jarrCons v t, r2)
              | none => none
            | none => none
          else none
        | [] => none := rfl

/-- One-step unfolding of the object-tail parser. -/
theorem parseM_objTail_step (g : Nat) (cs : List Char) :
    parseM (g + 1) .objTail cs
      = match skipWs cs with
        | c :: rest =>
          if c = rbChar then some (.jobjNil, rest)
          else if c = ',' then
            match skipWs rest with
            | c2 :: r2 =>
              if c2 = qChar then
                match parseStrBody r2 with
                | some (k, r3) =>
                  match skipWs r3 with
                  | ':' :: r4 =>
                    match parseM g .val r4 with
                    | some (v, r5) =>
                      match parseM g .objTail r5 with
                      | some (t, r6) => some (.jobjCons (String.mk k) v t, r6)
                      | none => none
                    | none => none
                  | _ => none
                | none => none
              else none
            | [] => none
          else none
        | [] => none := rfl

/-- The value parser ignores one leading space. -/
theorem parseM_val_space (f : Nat) (x : List Char) :
    parseM f .val (' ' :: x) = parseM f .val x := by
  cases f with
  | zero => rfl
  | succ g => rw [parseM_val_step, parseM_val_step, skipWs_space]

/-- The value parser on non-whitespace-headed input, with the head match
already reduced. -/
theorem parseM_val_cons (g : Nat) (c : Char) (rs : List Char) (hws : isWsC c = false) :
    parseM (g + 1) .val (c :: rs)
      = if c = 'n' then
          match rs with
          | 'u' :: 'l' :: 'l' :: r => some (.jnull, r)
          | _ => none
        else if c = 't' then
          match rs with
          | 'r' :: 'u' :: 'e' :: r => some (.jbool true, r)
          | _ => none
        else if c = 'f' then
          match rs with
          | 'a' :: 'l' :: 's' :: 'e' :: r => some (.jbool false, r)
          | _ => none
        else if c = '[' then
          match skipWs rs with
          | c2 :: r2 =>
            if c2 = ']' then some (.jarrNil, r2)
            else
              match parseM g .val (c2 :: r2) with
              | some (v, r3) =>
                match parseM g .arrTail r3 with
                | some (t, r4) => some (.jarrCons v t, r4)
                | none => none
              | none => none
          | [] => none
        else if c = lbChar then
          match skipWs rs with
          | c2 :: r2 =>
            if c2 = rbChar then some (.jobjNil, r2)
            else if c2 = qChar then
              match parseStrBody r2 with
              | some (k, r3) =>
                match skipWs r3 with
                | ':' :: r4 =>
                  match parseM g .val r4 with
                  | some (v, r5) =>
                    match parseM g .objTail r5 with
                    | some (t, r6) => some (.jobjCons (String.mk k) v t, r6)
                    | none => none
                  | none => none
                | _ => none
              | none => none
            else none
          | [] => none
        else if c = qChar then
          match parseStrBody rs with
          | some (s, r2) => some (.jstr (String.mk s), r2)
          | none => none
        else
          match parseNum (c :: rs) with
          | some (n, r2) => some (.jint n, r2)
          | none => none := by
  rw [parseM_val_step, skipWs_not_ws hws]

/-- The array-tail parser on non-whitespace-headed input. -/
theorem parseM_arrTail_cons (g : Nat) (c : Char) (rs : List Char) (hws : isWsC c = false) :
    parseM (g + 1) .arrTail (c :: rs)
      = if c = ']' then some (.jarrNil, rs)
        else if c = ',' then
          match parseM g .val rs with
          | some (v, r1) =>
            match parseM g .arrTail r1 with
            | some (t, r2) => some (.jarrCons v t, r2)
            | none => none
          | none => none
        else none := by
  rw [parseM_arrTail_step, skipWs_not_ws hws]

/-- The object-tail parser on non-whitespace-headed input. -/
theorem parseM_objTail_cons (g : Nat) (c : Char) (rs : List Char) (hws : isWsC c = false) :
    parseM (g + 1) .objTail (c :: rs)
      = if c = rbChar then some (.jobjNil, rs)
        else if c = ',' then
          match skipWs rs with
          | c2 :: r2 =>
            if c2 = qChar then
              match parseStrBody r2 with
              | some (k, r3) =>
                match skipWs r3 with
                | ':' :: r4 =>
                  match parseM g .val r4 with
                  | some (v, r5) =>
                    match parseM g .objTail r5 with
                    | some (t, r6) => some (.jobjCons (String.mk k) v t, r6)
                    | none => none
                  | none => none
                | _ => none
              | none => none
            else none
          | [] => none
        else none := by
  rw [parseM_objTail_step, skipWs_not_ws hws]

/-! ## Head shape of rendered output -/

/-- A rendered value starts with a non-whitespace character that is not `]`. -/
theorem dumpA_val_head (v : JValue) :
    ∃ c t2, dumpA .val v = c :: t2 ∧ isWsC c = false ∧ c ≠ ']' := by
  cases v with
  | jnull => exact ⟨'n', _, rfl, by decide, by decide⟩
  | jbool b =>
    cases b with
    | true => exact ⟨'t', _, rfl, by decide, by decide⟩
    | false => exact ⟨'f', _, rfl, by decide, by decide⟩
  | jint n =>
    by_cases hn : n < 0
    · exact ⟨'-', dumpNat n.natAbs, by simp [dumpA, dumpInt, hn], by decide, by decide⟩
    · obtain ⟨d, t, heq, hd10⟩ := dumpNatAux_cons (n.toNat + 1) n.toNat (Nat.lt_succ_self _)
      obtain ⟨-, -, hws, -, -, -, -, -, -, -, hbr, -⟩ := digitChar_facts d hd10
      exact ⟨digitChar d, t, by simp [dumpA, dumpInt, hn, dumpNat, heq], hws, hbr⟩
  | jstr s => exact ⟨qChar, _, rfl, by decide, by decide⟩
  | jarrNil => exact ⟨'[', _, rfl, by decide, by decide⟩
  | jarrCons h t => exact ⟨'[', _, rfl, by decide, by decide⟩
  | jobjNil => exact ⟨lbChar, _, rfl, by decide, by decide⟩
  | jobjCons k v t => exact ⟨lbChar, _, rfl, by decide, by decide⟩

/-- Rendered array tails cannot extend a number: they start with `]` or `,`. -/
theorem delimOk_dumpA_arrTail (t : JValue) (X : List Char) :
    delimOk (dumpA .arrTail t ++ X) = true := by
  cases t <;> rfl

/-- Rendered object tails cannot extend a number: they start with `}` or `,`. -/
theorem delimOk_dumpA_objTail (t : JValue) (X : List Char) :
    delimOk (dumpA .objTail t ++ X) = true := by
  cases t <;> rfl

/-! ## The printer–parser round-trip -/

/-- Parsing a rendered subtree in its role recovers it exactly, for any
sufficient fuel and any remainder that cannot extend a number. -/
theorem parseM_dumpA (v : JValue) : ∀ (mode : JMode) (fuel : Nat) (rest : List Char),
    wfW mode v = true → needJ v < fuel → delimOk rest = true →
    parseM fuel mode (dumpA mode v ++ rest) = some (v, rest) := by
  induction v with
  | jnull =>
    intro mode fuel rest hwf hneed hdel
    cases mode with
    | val =>
      cases fuel with
      | zero => simp [needJ] at hneed
      | succ g =>
        rw [show dumpA .val .jnull ++ rest = 'n' :: ('u' :: 'l' :: 'l' :: rest) from rfl]
        rw [parseM_val_cons g 'n' _ (by decide), if_pos rfl]
        rfl
    | arrTail => simp [wfW] at hwf
    | objTail => simp [wfW] at hwf
  | jbool b =>
    intro mode fuel rest hwf hneed hdel
    cases mode with
    | val =>
      cases fuel with
      | zero => simp [needJ] at hneed
      | succ g =>
        cases b with
        | true =>
          rw [show dumpA .val (.jbool true) ++ rest = 't' :: ('r' :: 'u' :: 'e' :: rest) from rfl]
          rw [parseM_val_cons g 't' _ (by decide), if_neg (by decide), if_pos rfl]
          rfl
        | false =>
          rw [show dumpA .val (.jbool false) ++ rest
              = 'f' :: ('a' :: 'l' :: 's' :: 'e' :: rest) from rfl]
          rw [parseM_val_cons g 'f' _ (by decide), if_neg (by decide), if_neg (by decide),
            if_pos rfl]
          rfl
    | arrTail => simp [wfW] at hwf
    | objTail => simp [wfW] at hwf
  | jint n =>
    intro mode fuel rest hwf hneed hdel
    cases mode with
    | val =>
      cases fuel with
      | zero => simp [needJ] at hneed
      | succ g =>
        by_cases hn : n < 0
        · have hshape : dumpA .val (.jint n) ++ rest
              = '-' :: (dumpNat n.natAbs ++ rest) := by
            simp [dumpA, dumpInt, hn]
          rw [hshape, parseM_val_cons g '-' _ (by decide)]
          rw [if_neg (by decide), if_neg (by decide), if_neg (by decide), if_neg (by decide),
            if_neg (by decide), if_neg (by decide)]
          rw [show '-' :: (dumpNat n.natAbs ++ rest) = dumpInt n ++ rest from by
            simp [dumpInt, hn]]
          rw [parseNum_dumpInt n rest hdel]
        · obtain ⟨d, t, heq, hd10⟩ := dumpNatAux_cons (n.toNat + 1) n.toNat (Nat.lt_succ_self _)
          obtain ⟨-, -, hws, hn1, hn2, hn3, hn4, hn5, hn6, -, -, -, -⟩ := digitChar_facts d hd10
          have hshape : dumpA .val (.jint n) ++ rest = digitChar d :: (t ++ rest) := by
            simp [dumpA, dumpInt, hn, dumpNat, heq]
          rw [hshape, parseM_val_cons g (digitChar d) _ hws]
          rw [if_neg hn1, if_neg hn2, if_neg hn3, if_neg hn4, if_neg hn5, if_neg hn6]
          rw [show digitChar d :: (t ++ rest) = dumpInt n ++ rest from by
            simp [dumpInt, hn, dumpNat, heq]]
          rw [parseNum_dumpInt n rest hdel]
    | arrTail => simp [wfW] at hwf
    | objTail => simp [wfW] at hwf
  | jstr s =>
    intro mode fuel rest hwf hneed hdel
    cases mode with
    | val =>
      cases fuel with
      | zero => simp [needJ] at hneed
      | succ g =>
        have hascii : s.data.all asciiOk = true := by
          simpa [wfW, strAsciiOk] using hwf
        have hshape : dumpA .val (.jstr s) ++ rest
            = qChar :: (escList s.data ++ (qChar :: rest)) := by
          simp [dumpA]
        rw [hshape, parseM_val_cons g qChar _ (by decide)]
        rw [if_neg (by decide), if_neg (by decide), if_neg (by decide), if_neg (by decide),
          if_neg (by decide), if_pos rfl]
        rw [parseStrBody_escList s.data hascii rest]
    | arrTail => simp [wfW] at hwf
    | objTail => simp [wfW] at hwf
  | jarrNil =>
    intro mode fuel rest hwf hneed hdel
    cases mode with
    | val =>
      cases fuel with
      | zero => simp [needJ] at hneed
      | succ g =>
        rw [show dumpA .val .jarrNil ++ rest = '[' :: (']' :: rest) from rfl]
        rw [parseM_val_cons g '[' _ (by decide)]
        rw [if_neg (by decide), if_neg (by decide), if_neg (by decide), if_pos rfl]
        rfl
    | arrTail =>
      cases fuel with
      | zero => simp [needJ] at hneed
      | succ g =>
        rw [show dumpA .arrTail .jarrNil ++ rest = ']' :: rest from rfl]
        rw [parseM_arrTail_cons g ']' _ (by decide), if_pos rfl]
    | objTail => simp [wfW] at hwf
  | jarrCons h t ihh iht =>
    intro mode fuel rest hwf hneed hdel
    have hwfs : wfW .val h = true ∧ wfW .arrTail t = true := by
      cases mode with
      | val => simpa [wfW, Bool.and_eq_true] using hwf
      | arrTail => simpa [wfW, Bool.and_eq_true] using hwf
      | objTail => simp [wfW] at hwf
    obtain ⟨hwfh, hwft⟩ := hwfs
    cases mode with
    | val =>
      cases fuel with
      | zero => simp [needJ] at hneed
      | succ g =>
        have hnh : needJ h < g := by simp only [needJ] at hneed; omega
        have hnt : needJ t < g := by simp only [needJ] at hneed; omega
        obtain ⟨c0, t0, hhead, hhws, hhbr⟩ := dumpA_val_head h
        have hshape : dumpA .val (.jarrCons h t) ++ rest
            = '[' :: (dumpA .val h ++ (dumpA .arrTail t ++ rest)) := by
          simp [dumpA]
        rw [hshape, parseM_val_cons g '[' _ (by decide)]
        rw [if_neg (by decide), if_neg (by decide), if_neg (by decide), if_pos rfl]
        rw [show dumpA .val h ++ (dumpA .arrTail t ++ rest)
            = c0 :: (t0 ++ (dumpA .arrTail t ++ rest)) from by rw [hhead]; simp]
        rw [skipWs_not_ws hhws]
        simp only []
        rw [if_neg hhbr]
        rw [show c0 :: (t0 ++ (dumpA .arrTail t ++ rest))
            = dumpA .val h ++ (dumpA .arrTail t ++ rest) from by rw [hhead]; simp]
        rw [ihh .val g (dumpA .arrTail t ++ rest) hwfh hnh (delimOk_dumpA_arrTail t rest)]
        simp only []
        rw [iht .arrTail g rest hwft hnt hdel]
    | arrTail =>
      cases fuel with
      | zero => simp [needJ] at hneed
      | succ g =>
        have hnh : needJ h < g := by simp only [needJ] at hneed; omega
        have hnt : needJ t < g := by simp only [needJ] at hneed; omega
        have hshape : dumpA .arrTail (.jarrCons h t) ++ rest
            = ',' :: (' ' :: (dumpA .val h ++ (dumpA .arrTail t ++ rest))) := by
          simp [dumpA]
        rw [hshape, parseM_arrTail_cons g ',' _ (by decide)]
        rw [if_neg (by decide), if_pos rfl]
        rw [parseM_val_space]
        rw [ihh .val g (dumpA .arrTail t ++ rest) hwfh hnh (delimOk_dumpA_arrTail t rest)]
        simp only []
        rw [iht .arrTail g rest hwft hnt hdel]
    | objTail => simp [wfW] at hwf
  | jobjNil =>
    intro mode fuel rest hwf hneed hdel
    cases mode with
    | val =>
      cases fuel with
      | zero => simp [needJ] at hneed
      | succ g =>
        rw [show dumpA .val .jobjNil ++ rest = lbChar :: (rbChar :: rest) from rfl]
        rw [parseM_val_cons g lbChar _ (by decide)]
        rw [if_neg (by decide), if_neg (by decide), if_neg (by decide), if_neg (by decide),
          if_pos rfl]
        rfl
    | arrTail => simp [wfW] at hwf
    | objTail =>
      cases fuel with
      | zero => simp [needJ] at hneed
      | succ g =>
        rw [show dumpA .objTail .jobjNil ++ rest = rbChar :: rest from rfl]
        rw [parseM_objTail_cons g rbChar _ (by decide), if_pos rfl]
  | jobjCons k v t ihv iht =>
    intro mode fuel rest hwf hneed hdel
    have hwfs : strAsciiOk k = true ∧ wfW .val v = true ∧ wfW .objTail t = true := by
      cases mode with
      | val => simpa [wfW, Bool.and_eq_true, and_assoc] using hwf
      | arrTail => simp [wfW] at hwf
      | objTail => simpa [wfW, Bool.and_eq_true, and_assoc] using hwf
    obtain ⟨hk, hwfv, hwft⟩ := hwfs
    have hkd : k.data.all asciiOk = true := by simpa [strAsciiOk] using hk
    cases mode with
    | val =>
      cases fuel with
      | zero => simp [needJ] at hneed
      | succ g =>
        have hnv : needJ v < g := by simp only [needJ] at hneed; omega
        have hnt : needJ t < g := by simp only [needJ] at hneed; omega
        have hshape : dumpA .val (.jobjCons k v t) ++ rest
            = lbChar :: (qChar :: (escList k.data
                ++ (qChar :: (':' :: (' ' :: (dumpA .val v ++ (dumpA .objTail t ++ rest))))))) := by
          simp [dumpA, dumpKey]
        rw [hshape, parseM_val_cons g lbChar _ (by decide)]
        rw [if_neg (by decide), if_neg (by decide), if_neg (by decide), if_neg (by decide),
          if_pos rfl]
        rw [skipWs_not_ws (by decide)]
        simp only []
        rw [if_neg (by decide)]
        simp only [if_true]
        rw [parseStrBody_escList k.data hkd]
        simp only []
        rw [skipWs_not_ws (by decide)]
        simp only []
        rw [parseM_val_space]
        rw [ihv .val g (dumpA .objTail t ++ rest) hwfv hnv (delimOk_dumpA_objTail t rest)]
        simp only []
        rw [iht .objTail g rest hwft hnt hdel]
    | arrTail => simp [wfW] at hwf
    | objTail =>
      cases fuel with
      | zero => simp [needJ] at hneed
      | succ g =>
        have hnv : needJ v < g := by simp only [needJ] at hneed; omega
        have hnt : needJ t < g := by simp only [needJ] at hneed; omega
        have hshape : dumpA .objTail (.jobjCons k v t) ++ rest
            = ',' :: (' ' :: (qChar :: (escList k.data
                ++ (qChar :: (':' :: (' ' :: (dumpA .val v ++ (dumpA .objTail t ++ rest)))))))) := by
          simp [dumpA, dumpKey]
        rw [hshape, parseM_objTail_cons g ',' _ (by decide)]
        rw [if_neg (by decide), if_pos rfl]
        rw [skipWs_space, skipWs_not_ws (by decide)]
        simp only []
        simp only [if_true]
        rw [parseStrBody_escList k.data hkd]
        simp only []
        rw [skipWs_not_ws (by decide)]
        simp only []
        rw [parseM_val_space]
        rw [ihv .val g (dumpA .objTail t ++ rest) hwfv hnv (delimOk_dumpA_objTail t rest)]
        simp only []
        rw [iht .objTail g rest hwft hnt hdel]

/-- The fuel a subtree needs is at most the length of its rendering. -/
theorem needJ_le_length (v : JValue) : ∀ (mode : JMode), wfW mode v = true →
    needJ v ≤ (dumpA mode v).length := by
  induction v with
  | jnull => intro mode _; cases mode <;> simp [needJ, dumpA]
  | jbool b => intro mode _; cases mode <;> cases b <;> simp [needJ, dumpA]
  | jint n =>
    intro mode _
    cases mode <;> simp only [needJ, dumpA]
    · by_cases hn : n < 0
      · simp [dumpInt, hn]
      · obtain ⟨d, t, heq, -⟩ := dumpNatAux_cons (n.toNat + 1) n.toNat (Nat.lt_succ_self _)
        simp [dumpInt, hn, dumpNat, heq]
    · simp
    · simp
  | jstr s => intro mode _; cases mode <;> simp [needJ, dumpA]
  | jarrNil => intro mode _; cases mode <;> simp [needJ, dumpA]
  | jarrCons h t ihh iht =>
    intro mode hwf
    cases mode with
    | val =>
      simp only [wfW, Bool.and_eq_true] at hwf
      have h1 := ihh .val hwf.1
      have h2 := iht .arrTail hwf.2
      simp only [needJ, dumpA, List.length_cons, List.length_append]
      omega
    | arrTail =>
      simp only [wfW, Bool.and_eq_true] at hwf
      have h1 := ihh .val hwf.1
      have h2 := iht .arrTail hwf.2
      simp only [needJ, dumpA, List.length_cons, List.length_append]
      omega
    | objTail => simp [wfW] at hwf
  | jobjNil => intro mode _; cases mode <;> simp [needJ, dumpA]
  | jobjCons k v t ihv iht =>
    intro mode hwf
    cases mode with
    | val =>
      simp only [wfW, Bool.and_eq_true, and_assoc] at hwf
      have h1 := ihv .val hwf.2.1
      have h2 := iht .objTail hwf.2.2
      simp only [needJ, dumpA, dumpKey, List.length_cons, List.length_append]
      omega
    | arrTail => simp [wfW] at hwf
    | objTail =>
      simp only [wfW, Bool.and_eq_true, and_assoc] at hwf
      have h1 := ihv .val hwf.2.1
      have h2 := iht .objTail hwf.2.2
      simp only [needJ, dumpA, dumpKey, List.length_cons, List.length_append]
      omega

/-- `json.loads` inverts `json.dumps` on well-formed documents. -/
theorem json_loads_dumps (v : JValue) (hwf : wfW .val v = true) :
    json_loads (json_dumps v) = .ok v := by
  have hlen := needJ_le_length v .val hwf
  have hrt := parseM_dumpA v .val ((dumpA .val v).length + 1) [] hwf (by omega) rfl
  rw [List.append_nil] at hrt
  show (match parseM ((dumpA .val v).length + 1) .val (dumpA .val v) with
        | some (v, r) => if skipWs r = [] then Except.ok v else Except.error "Extra data"
        | none => Except.error "Expecting value") = Except.ok v
  rw [hrt]
  rfl

/-! ## Validation-layer lemmas -/

/-- Lookup in a built object is association-list lookup. -/
theorem objLookup_ofFields (k : String) (o : List (String × JValue)) :
    objLookup k (ofFields o) = o.lookup k := by
  induction o with
  | nil => rfl
  | cons p t ih =>
    obtain ⟨k2, v⟩ := p
    show (if k2 == k then some v else objLookup k (ofFields t)) = List.lookup k ((k2, v) :: t)
    rw [ih]
    by_cases h : k2 = k
    · subst h
      simp [List.lookup]
    · have h1 : (k2 == k) = false := by simp [h]
      have h2 : (k == k2) = false := by
        simp only [beq_eq_false_iff_ne]
        exact fun e => h e.symm
      simp [List.lookup, h1, h2]

/-- Validation only looks at the fields' own keys. -/
theorem validateFields_congr (fields : List SField) (d d2 : JValue)
    (h : ∀ f ∈ fields, objLookup f.name d = objLookup f.name d2) :
    validateFields fields d = validateFields fields d2 := by
  induction fields with
  | nil => rfl
  | cons f fs ih =>
    have hf := h f (List.mem_cons_self f fs)
    have hrest := ih fun g hg => h g (List.mem_cons_of_mem f hg)
    simp only [validateFields, hf, hrest]

/-- Validating a serialization-shaped dict succeeds and returns it exactly. -/
theorem validateFields_ok (fields : List SField) :
    ∀ (o : List (String × JValue)),
    o.map Prod.fst = fields.map SField.name →
    (fields.zip o).all (fun fp => typeOk fp.1.ty fp.2.2) = true →
    (fields.map SField.name).Nodup →
    validateFields fields (ofFields o) = .ok o := by
  induction fields with
  | nil =>
    intro o hnames _ _
    have : o = [] := by
      cases o with
      | nil => rfl
      | cons p t => simp at hnames
    subst this
    rfl
  | cons f fs ih =>
    intro o hnames htypes hnodup
    cases o with
    | nil => simp at hnames
    | cons p o2 =>
      obtain ⟨k0, v0⟩ := p
      simp only [List.map_cons, List.cons.injEq] at hnames
      obtain ⟨hk0, hnames2⟩ := hnames
      simp only [List.zip_cons_cons, List.all_cons, Bool.and_eq_true] at htypes
      obtain ⟨hty, htypes2⟩ := htypes
      simp only [List.map_cons, List.nodup_cons] at hnodup
      obtain ⟨hnotin, hnodup2⟩ := hnodup
      subst hk0
      simp only [validateFields]
      rw [show objLookup f.name (ofFields ((f.name, v0) :: o2))
          = some v0 from by simp [ofFields, objLookup]]
      simp only [hty, if_pos]
      have hcongr : validateFields fs (ofFields ((f.name, v0) :: o2))
          = validateFields fs (ofFields o2) := by
        apply validateFields_congr
        intro g hg
        have hne : ¬(f.name == g.name) = true := by
          simp only [beq_iff_eq]
          intro he
          exact hnotin (he ▸ List.mem_map_of_mem SField.name hg)
        show (if f.name == g.name then some v0 else objLookup g.name (ofFields o2)) = _
        simp [Bool.not_eq_true] at hne
        simp [hne]
      rw [hcongr, ih o2 hnames2 htypes2 hnodup2]

/-- A well-typed `list[str]` chain is well-formed in both array roles. -/
theorem strChain_wf : ∀ (v : JValue), allStrChain v = true → allStrAsciiChain v = true →
    wfW .val v = true ∧ wfW .arrTail v = true := by
  intro v
  induction v with
  | jarrNil => intro _ _; exact ⟨rfl, rfl⟩
  | jarrCons h t ihh iht =>
    intro h1 h2
    cases h with
    | jstr s =>
      simp only [allStrChain, allStrAsciiChain, Bool.and_eq_true, Bool.true_and] at h1 h2
      obtain ⟨hwt1, hwt2⟩ := iht h1 h2.2
      simp [wfW, h2.1, hwt1, hwt2]
    | jnull => simp [allStrChain] at h1
    | jbool b => simp [allStrChain] at h1
    | jint n => simp [allStrChain] at h1
    | jarrNil => simp [allStrChain] at h1
    | jarrCons h2 t2 => simp [allStrChain] at h1
    | jobjNil => simp [allStrChain] at h1
    | jobjCons k2 v2 t2 => simp [allStrChain] at h1
  | jnull => intro h1 _; simp [allStrChain] at h1
  | jbool b => intro h1 _; simp [allStrChain] at h1
  | jint n => intro h1 _; simp [allStrChain] at h1
  | jstr s => intro h1 _; simp [allStrChain] at h1
  | jobjNil => intro h1 _; simp [allStrChain] at h1
  | jobjCons k v t ihv iht => intro h1 _; simp [allStrChain] at h1

/-- A value satisfying its annotation and its ASCII condition is well-formed. -/
theorem typeOk_wf (ty : FieldType) (v : JValue) (h1 : typeOk ty v = true)
    (h2 : valAsciiOk ty v = true) : wfW .val v = true := by
  cases ty with
  | fstr => cases v <;> simp_all [typeOk, valAsciiOk, wfW]
  | fint => cases v <;> simp_all [typeOk, wfW]
  | fbool => cases v <;> simp_all [typeOk, wfW]
  | farrStr =>
    exact (strChain_wf v (by simpa [typeOk] using h1) (by simpa [valAsciiOk] using h2)).1

/-- A schema-conformant association list builds a well-formed JSON object. -/
theorem wf_ofFields : ∀ (fields : List SField) (o : List (String × JValue)),
    o.map Prod.fst = fields.map SField.name →
    (fields.zip o).all (fun fp => typeOk fp.1.ty fp.2.2) = true →
    fields.all (fun f => strAsciiOk f.name) = true →
    (fields.zip o).all (fun fp => valAsciiOk fp.1.ty fp.2.2) = true →
    wfW .val (ofFields o) = true ∧ wfW .objTail (ofFields o) = true := by
  intro fields
  induction fields with
  | nil =>
    intro o hnames _ _ _
    have : o = [] := by
      cases o with
      | nil => rfl
      | cons p t => simp at hnames
    subst this
    exact ⟨rfl, rfl⟩
  | cons f fs ih =>
    intro o hnames htypes hascii hvascii
    cases o with
    | nil => simp at hnames
    | cons p o2 =>
      obtain ⟨k0, v0⟩ := p
      simp only [List.map_cons, List.cons.injEq] at hnames
      obtain ⟨hk0, hnames2⟩ := hnames
      simp only [List.zip_cons_cons, List.all_cons, Bool.and_eq_true] at htypes hvascii
      simp only [List.all_cons, Bool.and_eq_true] at hascii
      have hwfv := typeOk_wf f.ty v0 htypes.1 hvascii.1
      have hih := ih o2 hnames2 htypes.2 hascii.2 hvascii.2
      subst hk0
      constructor
      · show wfW .val (.jobjCons f.name v0 (ofFields o2)) = true
        simp [wfW, hascii.1, hwfv, hih.2]
      · show wfW .objTail (.jobjCons f.name v0 (ofFields o2)) = true
        simp [wfW, hascii.1, hwfv, hih.2]

/-- If some required field is missing from the dict, validation fails. -/
theorem validateFields_missing : ∀ (fields : List SField) (d : JValue),
    (∃ f ∈ fields, f.required = true ∧ objLookup f.name d = none) →
    ∃ e, validateFields fields d = .error e := by
  intro fields
  induction fields with
  | nil => intro d h; simp at h
  | cons f fs ih =>
    intro d h
    obtain ⟨f0, hf0mem, hreq, hnone⟩ := h
    rcases List.mem_cons.mp hf0mem with heq | hmem
    · subst heq
      refine ⟨"Field required: " ++ f0.name, ?_⟩
      simp only [validateFields, hnone, hreq, if_pos]
    · simp only [validateFields]
      cases hl : objLookup f.name d with
      | some v =>
        simp only []
        by_cases hty : typeOk f.ty v = true
        · obtain ⟨e, he⟩ := ih d ⟨f0, hmem, hreq, hnone⟩
          rw [if_pos hty, he]
          exact ⟨e, rfl⟩
        · rw [if_neg hty]
          exact ⟨_, rfl⟩
      | none =>
        simp only []
        by_cases hr : f.required = true
        · rw [if_pos hr]
          exact ⟨_, rfl⟩
        · rw [if_neg hr]
          obtain ⟨e, he⟩ := ih d ⟨f0, hmem, hreq, hnone⟩
          rw [he]
          exact ⟨e, rfl⟩

/-- If some required field is missing, pydantic-v2 validation of the decoded
value fails, whatever its shape. -/
theorem model_validate_error (C : PydClass) (v : JValue)
    (h : ∃ f ∈ C.fields, f.required = true ∧ objLookup f.name v = none) :
    ∃ e, model_validate C v = .error e := by
  cases v with
  | jobjNil => exact validateFields_missing C.fields _ h
  | jobjCons k v0 t => exact validateFields_missing C.fields _ h
  | jnull => exact ⟨_, rfl⟩
  | jbool b => exact ⟨_, rfl⟩
  | jint n => exact ⟨_, rfl⟩
  | jstr s => exact ⟨_, rfl⟩
  | jarrNil => exact ⟨_, rfl⟩
  | jarrCons h0 t => exact ⟨_, rfl⟩

/-- The v1 analogue of `model_validate_error`. -/
theorem parse_obj_v1_error (C : PydClass) (v : JValue)
    (h : ∃ f ∈ C.fields, f.required = true ∧ objLookup f.name v = none) :
    ∃ e, parse_obj_v1 C v = .error e := by
  cases v with
  | jobjNil => exact validateFields_missing C.fields _ h
  | jobjCons k v0 t => exact validateFields_missing C.fields _ h
  | jnull => exact ⟨_, rfl⟩
  | jbool b => exact ⟨_, rfl⟩
  | jint n => exact ⟨_, rfl⟩
  | jstr s => exact ⟨_, rfl⟩
  | jarrNil => exact ⟨_, rfl⟩
  | jarrCons h0 t => exact ⟨_, rfl⟩

/-! ## Dict lemmas for `get_format_instructions` -/

/-- After `del d[k]`, the key is gone. -/
theorem lookup_delKey_self (k : String) (d : List (String × JValue)) :
    (delKey k d).lookup k = none := by
  induction d with
  | nil => rfl
  | cons p t ih =>
    obtain ⟨k2, v⟩ := p
    by_cases h : k2 = k
    · subst h
      simp [delKey, List.filter] at ih ⊢
      simpa [delKey] using ih
    · have h1 : (k2 != k) = true := by simp [h]
      have h2 : (k == k2) = false := by
        simp only [beq_eq_false_iff_ne]
        exact fun e => h e.symm
      simp only [delKey, List.filter] at ih ⊢
      rw [h1]
      simp only [List.lookup, h2]
      exact ih

/-- `del d[k]` leaves every other key's binding unchanged. -/
theorem lookup_delKey_other (k k2 : String) (h : k2 ≠ k) (d : List (String × JValue)) :
    (delKey k d).lookup k2 = d.lookup k2 := by
  induction d with
  | nil => rfl
  | cons p t ih =>
    obtain ⟨k3, v⟩ := p
    by_cases h3 : k3 = k
    · subst h3
      have h2 : (k2 == k3) = false := by
        simp only [beq_eq_false_iff_ne]
        exact h
      simp only [delKey, List.filter, bne_self_eq_false] at ih ⊢
      rw [show (List.lookup k2 ((k3, v) :: t)) = List.lookup k2 t from by
        simp [List.lookup, h2]]
      exact ih
    · have h1 : (k3 != k) = true := by simp [h3]
      simp only [delKey, List.filter] at ih ⊢
      rw [h1]
      simp only [List.lookup]
      cases hk : k2 == k3 with
      | true => rfl
      | false => exact ih

/-! ## Substring containment -/

/-- `sub` occurs contiguously inside `s`. -/
def strContains (s sub : String) : Prop := sub.data <:+: s.data

/-- Build containment from an explicit decomposition. -/
theorem strContains_build (x y pre post : String) (h : x = pre ++ y ++ post) :
    strContains x y := by
  subst h
  exact ⟨pre.data, post.data, by simp [String.data_append]⟩

/-! ## Embedding-model lemmas -/

/-- `np.random.normal(size=k)` returns exactly `k` draws. -/
theorem npNormalDraws_length (k : Nat) : ∀ s : Nat, (npNormalDraws k s).1.length = k := by
  induction k with
  | zero => intro s; rfl
  | succ k ih => intro s; simp [npNormalDraws, ih]

/-- Shape of `FakeEmbeddings.embed_documents`: one vector per text, each of
length `size`. -/
theorem fake_embed_documents_shape (m : FakeEmbeddings) :
    ∀ (texts : List String) (g : Nat),
    ((m.embed_documents texts g).1.length = texts.length
      ∧ ∀ v ∈ (m.embed_documents texts g).1, v.length = m.size) := by
  intro texts
  induction texts with
  | nil => intro g; exact ⟨rfl, by simp [FakeEmbeddings.embed_documents]⟩
  | cons t ts ih =>
    intro g
    simp only [FakeEmbeddings.embed_documents, FakeEmbeddings._get_embedding]
    constructor
    · simp [(ih _).1]
    · intro v hv
      rcases List.mem_cons.mp hv with heq | hmem
      · subst heq
        exact npNormalDraws_length m.size g
      · exact (ih _).2 v hmem

/-- Shape of `DeterministicFakeEmbedding.embed_documents`. -/
theorem det_embed_documents_shape (m : DeterministicFakeEmbedding) :
    ∀ (texts : List String) (g : Nat),
    ((m.embed_documents texts g).1.length = texts.length
      ∧ ∀ v ∈ (m.embed_documents texts g).1, v.length = m.size) := by
  intro texts
  induction texts with
  | nil => intro g; exact ⟨rfl, by simp [DeterministicFakeEmbedding.embed_documents]⟩
  | cons t ts ih =>
    intro g
    simp only [DeterministicFakeEmbedding.embed_documents,
      DeterministicFakeEmbedding._get_embedding]
    constructor
    · simp [(ih _).1]
    · intro v hv
      rcases List.mem_cons.mp hv with heq | hmem
      · subst heq
        exact npNormalDraws_length m.size _
      · exact (ih _).2 v hmem

/-- Containment when the pattern is a prefix. -/
theorem strContains_head (x y post : String) (h : x = y ++ post) : strContains x y := by
  subst h
  exact ⟨[], post.data, by simp [String.data_append]⟩

/-- A sample pydantic-v2 model class with two required fields, used as a
concrete parser configuration. -/
def CountModel : PydClass :=
  ⟨"CountModel", [⟨"count", .fint, true⟩, ⟨"name", .fstr, true⟩], .v2⟩

/-- C1: the claim says `parse_result` with `partial=True` accepts an
incomplete JSON object and returns the fields decoded so far.  The source
never forwards the flag: on the truncated generation `{"count": 1` it raises
the strict decode failure — even though the partial JSON machinery itself
(`parse_partial_json`) recovers the partial object, as the second conjunct
shows.  This contradicts `parse_result`'s own docstring. -/
theorem C1_partial_flag_ignored :
    PydanticOutputParser.parse_result ⟨CountModel⟩ [⟨"\x7b\"count\": 1"⟩] true
        = .error ⟨"Invalid json output: \x7b\"count\": 1. Got: Expecting value", none⟩
      ∧ parse_partial_json "\x7b\"count\": 1" = some (.jobjCons "count" (.jint 1) .jobjNil) := by
  exact ⟨rfl, rfl⟩

/-- C4: for positive `size`, `embed_documents` on both fake embedding models
returns one vector per input text, each of length exactly `size`. -/
theorem C4_embed_documents_shape (size : Nat) (texts : List String) (g : Nat)
    (hpos : 0 < size) :
    (((FakeEmbeddings.mk size).embed_documents texts g).1.length = texts.length
      ∧ ∀ v ∈ ((FakeEmbeddings.mk size).embed_documents texts g).1, v.length = size)
    ∧ (((DeterministicFakeEmbedding.mk size).embed_documents texts g).1.length = texts.length
      ∧ ∀ v ∈ ((DeterministicFakeEmbedding.mk size).embed_documents texts g).1,
          v.length = size) :=
  ⟨fake_embed_documents_shape (FakeEmbeddings.mk size) texts g,
    det_embed_documents_shape (DeterministicFakeEmbedding.mk size) texts g⟩

/-- Witness for C4 at `size = 3` on two texts. -/
theorem C4_embed_documents_shape_witness :
    0 < 3
    ∧ ((((FakeEmbeddings.mk 3).embed_documents ["hello world", "foo bar"] 0).1.length = 2
        ∧ ∀ v ∈ ((FakeEmbeddings.mk 3).embed_documents ["hello world", "foo bar"] 0).1,
            v.length = 3)
      ∧ (((DeterministicFakeEmbedding.mk 3).embed_documents ["hello world", "foo bar"] 0).1.length
            = 2
        ∧ ∀ v ∈ ((DeterministicFakeEmbedding.mk 3).embed_documents
            ["hello world", "foo bar"] 0).1, v.length = 3)) :=
  ⟨by decide, C4_embed_documents_shape 3 ["hello world", "foo bar"] 0 (by decide)⟩

/-- C5: `DeterministicFakeEmbedding.embed_query` is a pure function of the
text (and size).  Two successive calls in the same process — the second
starting from whatever generator state the first left behind — return the
same vector, because `_get_embedding` reseeds the generator from
`sha256(text) mod 10^8` before drawing. -/
theorem C5_embed_query_deterministic (m : DeterministicFakeEmbedding) (t : String) (g : Nat) :
    (m.embed_query t g).1 = (m.embed_query t (m.embed_query t g).2).1
    ∧ (∀ g2 : Nat, (m.embed_query t g).1 = (m.embed_query t g2).1)
    ∧ m.embed_query t g = m._get_embedding (sha256int t % 10 ^ 8) g :=
  ⟨rfl, fun _ => rfl, rfl⟩

/-- C7: input that is not valid JSON yields the descriptive decode failure,
whose message carries the original text and the underlying decode error. -/
theorem C7_decode_failure (p : PydanticOutputParser) (text e : String)
    (h : json_loads text = .error e) :
    p.parse text = .error ⟨"Invalid json output: " ++ text ++ ". Got: " ++ e, none⟩
    ∧ strContains ("Invalid json output: " ++ text ++ ". Got: " ++ e) text
    ∧ strContains ("Invalid json output: " ++ text ++ ". Got: " ++ e) e := by
  refine ⟨?_, ?_, ?_⟩
  · show PydanticOutputParser.parse_result p [⟨text⟩] false = _
    show (match JsonOutputParser.parse_result [⟨text⟩] false with
          | .ok json_object => p._parse_obj PYDANTIC_MAJOR_VERSION json_object
          | .error e => .error e) = _
    rw [show JsonOutputParser.parse_result [⟨text⟩] false
        = (match json_loads text with
           | .ok v => .ok v
           | .error e2 =>
             .error ⟨"Invalid json output: " ++ text ++ ". Got: " ++ e2, none⟩) from rfl]
    rw [h]
  · exact strContains_build _ text "Invalid json output: " (". Got: " ++ e)
      (by simp [String.append_assoc])
  · exact strContains_build _ e ("Invalid json output: " ++ text ++ ". Got: ") ""
      (by simp [String.append_assoc])

/-- Witness for C7 on the spec's example input. -/
theorem C7_decode_failure_witness :
    json_loads "\x7bnot valid" = .error "Expecting value"
    ∧ (PydanticOutputParser.parse ⟨CountModel⟩ "\x7bnot valid"
        = .error ⟨"Invalid json output: \x7bnot valid. Got: Expecting value", none⟩
      ∧ strContains ("Invalid json output: " ++ "\x7bnot valid" ++ ". Got: " ++ "Expecting value")
          "\x7bnot valid"
      ∧ strContains ("Invalid json output: " ++ "\x7bnot valid" ++ ". Got: " ++ "Expecting value")
          "Expecting value") :=
  ⟨rfl, C7_decode_failure ⟨CountModel⟩ "\x7bnot valid" "Expecting value" rfl⟩

/-- C8: `get_format_instructions` does not mutate the parser: the deletions
of `title` and `type` happen on a copy of the schema dict, so the state
component of the call is unchanged and the schema observable afterwards is
identical. -/
theorem C8_get_format_instructions_pure (st : ParserState) :
    (st.get_format_instructions_run).2 = st
    ∧ (st.get_format_instructions_run).2.pydantic_object.schemaDict
        = st.pydantic_object.schemaDict
    ∧ hasKey "title" (st.get_format_instructions_run).2.pydantic_object.schemaDict
        = hasKey "title" st.pydantic_object.schemaDict :=
  ⟨rfl, rfl, rfl⟩

/-- C9: under pydantic major version 2, a configured class that subclasses
neither pydantic base class makes `_parse_obj` (and `parse_result` after a
successful decode) raise the unsupported-model-version failure, for every
decoded object. -/
theorem C9_unsupported_model_version (pmv : Nat) (p : PydanticOutputParser) (obj : JValue)
    (hpmv : pmv = 2) (hver : p.pydantic_object.version = .other) :
    p._parse_obj pmv obj
        = .error ⟨"Unsupported model version for PydanticOutputParser: "
            ++ classRepr p.pydantic_object, none⟩
    ∧ strContains ("Unsupported model version for PydanticOutputParser: "
          ++ classRepr p.pydantic_object) "Unsupported model version"
    ∧ ∀ (result : List Generation) (b : Bool) (j : JValue),
        JsonOutputParser.parse_result result false = .ok j →
        p.parse_result result b
          = .error ⟨"Unsupported model version for PydanticOutputParser: "
              ++ classRepr p.pydantic_object, none⟩ := by
  subst hpmv
  have hmain : ∀ o : JValue, p._parse_obj 2 o
      = .error ⟨"Unsupported model version for PydanticOutputParser: "
          ++ classRepr p.pydantic_object, none⟩ := by
    intro o
    simp only [PydanticOutputParser._parse_obj, if_true]
    rw [hver]
  refine ⟨hmain obj, ?_, ?_⟩
  · have hlit : ("Unsupported model version for PydanticOutputParser: " : String)
        = "Unsupported model version" ++ " for PydanticOutputParser: " := by decide
    exact strContains_head _ "Unsupported model version"
      (" for PydanticOutputParser: " ++ classRepr p.pydantic_object)
      (by rw [hlit, String.append_assoc])
  · intro result b j hj
    show (match JsonOutputParser.parse_result result false with
          | .ok json_object => p._parse_obj PYDANTIC_MAJOR_VERSION json_object
          | .error e => .error e) = _
    rw [hj]
    exact hmain j

/-- A class that subclasses neither pydantic base class. -/
def PlainClass : PydClass := ⟨"Dummy", [], .other⟩

/-- Witness for C9 on a concrete non-pydantic class and decoded object. -/
theorem C9_unsupported_model_version_witness :
    2 = 2
    ∧ (PlainClass.version = .other)
    ∧ (PydanticOutputParser._parse_obj 2 ⟨PlainClass⟩ .jobjNil
          = .error ⟨"Unsupported model version for PydanticOutputParser: "
              ++ classRepr PlainClass, none⟩
      ∧ strContains ("Unsupported model version for PydanticOutputParser: "
            ++ classRepr PlainClass) "Unsupported model version"
      ∧ ∀ (result : List Generation) (b : Bool) (j : JValue),
          JsonOutputParser.parse_result result false = .ok j →
          PydanticOutputParser.parse_result ⟨PlainClass⟩ result b
            = .error ⟨"Unsupported model version for PydanticOutputParser: "
                ++ classRepr PlainClass, none⟩) :=
  ⟨rfl, rfl, C9_unsupported_model_version 2 ⟨PlainClass⟩ .jobjNil rfl rfl⟩

/-- C10: for the deterministic fake embedding, `embed_documents` is the
elementwise map of `embed_query` over the texts, in order. -/
theorem C10_embed_documents_map (m : DeterministicFakeEmbedding) :
    ∀ (texts : List String) (g : Nat),
    (m.embed_documents texts g).1 = texts.map fun t => (m.embed_query t g).1 := by
  intro texts
  induction texts with
  | nil => intro g; rfl
  | cons t ts ih =>
    intro g
    simp only [DeterministicFakeEmbedding.embed_documents, List.map_cons]
    refine congrArg₂ List.cons rfl ?_
    rw [ih]
    rfl

/-- C2: parsing the JSON serialization of a schema-conformant object returns
an equal object (serialize-then-parse is the identity).  The printable-ASCII
hypotheses delimit the fragment of Python strings over which the `json`
model is proven inverse; the `Nodup` hypothesis is pydantic's invariant that
a class cannot declare two fields of the same name. -/
theorem C2_serialize_parse_roundtrip (p : PydanticOutputParser) (o : List (String × JValue))
    (hver : p.pydantic_object.version = .v2)
    (hnodup : (p.pydantic_object.fields.map SField.name).Nodup)
    (hascii : p.pydantic_object.fields.all (fun f => strAsciiOk f.name) = true)
    (hconf : conforms p.pydantic_object o = true)
    (hvascii : (p.pydantic_object.fields.zip o).all
      (fun fp => valAsciiOk fp.1.ty fp.2.2) = true) :
    p.parse (json_dumps (ofFields o)) = .ok o := by
  have hconf2 := hconf
  simp only [conforms, Bool.and_eq_true, beq_iff_eq] at hconf2
  obtain ⟨hnames, htypes⟩ := hconf2
  have hwf := wf_ofFields p.pydantic_object.fields o hnames htypes hascii hvascii
  have hloads := json_loads_dumps (ofFields o) hwf.1
  have hmv : model_validate p.pydantic_object (ofFields o) = .ok o := by
    cases o with
    | nil => exact validateFields_ok p.pydantic_object.fields [] hnames htypes hnodup
    | cons q o2 => exact validateFields_ok p.pydantic_object.fields (q :: o2) hnames htypes hnodup
  show PydanticOutputParser.parse_result p [⟨json_dumps (ofFields o)⟩] false = .ok o
  show (match JsonOutputParser.parse_result [⟨json_dumps (ofFields o)⟩] false with
        | .ok json_object => p._parse_obj PYDANTIC_MAJOR_VERSION json_object
        | .error e => .error e) = .ok o
  rw [show JsonOutputParser.parse_result [⟨json_dumps (ofFields o)⟩] false
      = (match json_loads (json_dumps (ofFields o)) with
         | .ok v => Except.ok v
         | .error e2 => Except.error ⟨"Invalid json output: " ++ json_dumps (ofFields o)
             ++ ". Got: " ++ e2, none⟩) from rfl]
  rw [hloads]
  show p._parse_obj PYDANTIC_MAJOR_VERSION (ofFields o) = .ok o
  simp only [PydanticOutputParser._parse_obj, PYDANTIC_MAJOR_VERSION, if_true]
  rw [hver]
  simp only []
  rw [hmv]

/-- Witness for C2 on a concrete conformant object. -/
theorem C2_serialize_parse_roundtrip_witness :
    ((⟨CountModel⟩ : PydanticOutputParser).pydantic_object.version = .v2)
    ∧ ((⟨CountModel⟩ : PydanticOutputParser).pydantic_object.fields.map SField.name).Nodup
    ∧ (⟨CountModel⟩ : PydanticOutputParser).pydantic_object.fields.all
        (fun f => strAsciiOk f.name) = true
    ∧ conforms (⟨CountModel⟩ : PydanticOutputParser).pydantic_object
        [("count", .jint 1), ("name", .jstr "Ada")] = true
    ∧ ((⟨CountModel⟩ : PydanticOutputParser).pydantic_object.fields.zip
        [("count", .jint 1), ("name", .jstr "Ada")]).all
          (fun fp => valAsciiOk fp.1.ty fp.2.2) = true
    ∧ PydanticOutputParser.parse ⟨CountModel⟩
        (json_dumps (ofFields [("count", .jint 1), ("name", .jstr "Ada")]))
        = .ok [("count", .jint 1), ("name", .jstr "Ada")] :=
  ⟨rfl, by decide, by decide, by decide, by decide,
    C2_serialize_parse_roundtrip ⟨CountModel⟩ [("count", .jint 1), ("name", .jstr "Ada")]
      rfl (by decide) (by decide) (by decide) (by decide)⟩

/-- The wrapped validation failure carries the class name and the offending
JSON (re-serialized) in its message, and the JSON string in `llm_output`. -/
theorem parser_exception_fields (p : PydanticOutputParser) (e : String) (v : JValue) :
    (p._parser_exception e v).llm_output = some (json_dumps v)
    ∧ strContains (p._parser_exception e v).msg p.pydantic_object.name
    ∧ strContains (p._parser_exception e v).msg (json_dumps v) := by
  refine ⟨rfl, ?_, ?_⟩
  · exact strContains_build _ _ "Failed to parse "
      (" from completion " ++ json_dumps v ++ ". Got: " ++ e)
      (by simp [PydanticOutputParser._parser_exception, String.append_assoc])
  · exact strContains_build _ _
      ("Failed to parse " ++ p.pydantic_object.name ++ " from completion ")
      (". Got: " ++ e)
      (by simp [PydanticOutputParser._parser_exception, String.append_assoc])

/-- C3: valid JSON that lacks a required field parses to a single descriptive
failure whose message contains the class name and the offending JSON
serialized back to a string, with that string in `llm_output`. -/
theorem C3_missing_required_field (p : PydanticOutputParser) (text : String) (v : JValue)
    (hver : p.pydantic_object.version ≠ .other)
    (hloads : json_loads text = .ok v)
    (hmiss : ∃ f ∈ p.pydantic_object.fields, f.required = true ∧ objLookup f.name v = none) :
    ∃ err, p.parse text = .error err
      ∧ err.llm_output = some (json_dumps v)
      ∧ strContains err.msg p.pydantic_object.name
      ∧ strContains err.msg (json_dumps v) := by
  have hstep : p.parse text = p._parse_obj PYDANTIC_MAJOR_VERSION v := by
    show PydanticOutputParser.parse_result p [⟨text⟩] false = _
    show (match JsonOutputParser.parse_result [⟨text⟩] false with
          | .ok json_object => p._parse_obj PYDANTIC_MAJOR_VERSION json_object
          | .error e => .error e) = _
    rw [show JsonOutputParser.parse_result [⟨text⟩] false
        = (match json_loads text with
           | .ok w => Except.ok w
           | .error e2 => Except.error ⟨"Invalid json output: " ++ text
               ++ ". Got: " ++ e2, none⟩) from rfl]
    rw [hloads]
  cases hv : p.pydantic_object.version with
  | other => exact absurd hv hver
  | v2 =>
    obtain ⟨e, he⟩ := model_validate_error p.pydantic_object v hmiss
    refine ⟨p._parser_exception e v, ?_, (parser_exception_fields p e v).1,
      (parser_exception_fields p e v).2.1, (parser_exception_fields p e v).2.2⟩
    rw [hstep]
    simp only [PydanticOutputParser._parse_obj, PYDANTIC_MAJOR_VERSION, if_true]
    rw [hv]
    simp only []
    rw [he]
  | v1 =>
    obtain ⟨e, he⟩ := parse_obj_v1_error p.pydantic_object v hmiss
    refine ⟨p._parser_exception e v, ?_, (parser_exception_fields p e v).1,
      (parser_exception_fields p e v).2.1, (parser_exception_fields p e v).2.2⟩
    rw [hstep]
    simp only [PydanticOutputParser._parse_obj, PYDANTIC_MAJOR_VERSION, if_true]
    rw [hv]
    simp only []
    rw [he]

/-- Witness for C3 on valid JSON missing the required `name` field. -/
theorem C3_missing_required_field_witness :
    ((⟨CountModel⟩ : PydanticOutputParser).pydantic_object.version ≠ .other)
    ∧ json_loads "\x7b\"count\": 1\x7d" = .ok (.jobjCons "count" (.jint 1) .jobjNil)
    ∧ (∃ f ∈ (⟨CountModel⟩ : PydanticOutputParser).pydantic_object.fields,
        f.required = true ∧ objLookup f.name (.jobjCons "count" (.jint 1) .jobjNil) = none)
    ∧ (∃ err, PydanticOutputParser.parse ⟨CountModel⟩ "\x7b\"count\": 1\x7d" = .error err
        ∧ err.llm_output = some (json_dumps (.jobjCons "count" (.jint 1) .jobjNil))
        ∧ strContains err.msg (⟨CountModel⟩ : PydanticOutputParser).pydantic_object.name
        ∧ strContains err.msg (json_dumps (.jobjCons "count" (.jint 1) .jobjNil))) :=
  ⟨by decide, rfl, by decide,
    C3_missing_required_field ⟨CountModel⟩ "\x7b\"count\": 1\x7d"
      (.jobjCons "count" (.jint 1) .jobjNil) (by decide) rfl (by decide)⟩

/-- The schema dict always carries a top-level `title`. -/
theorem hasKey_title_schemaDict (C : PydClass) : hasKey "title" C.schemaDict = true := by
  simp [hasKey, PydClass.schemaDict]

/-- After deleting `title`, the schema dict still carries `type`. -/
theorem hasKey_type_delKey_title (C : PydClass) :
    hasKey "type" (delKey "title" C.schemaDict) = true := by
  simp [hasKey, delKey, PydClass.schemaDict, List.filter_append]

/-- C6: the format instructions embed the JSON serialization of the schema
with its top-level `title` and `type` removed; the reduced schema keeps the
`properties` entry unchanged, and the serialized `properties` object itself
occurs inside the output string. -/
theorem C6_format_instructions (p : PydanticOutputParser) :
    p.get_format_instructions
        = instrHead
          ++ json_dumps (ofFields (delKey "type" (delKey "title" p.pydantic_object.schemaDict)))
          ++ instrTail
    ∧ (delKey "type" (delKey "title" p.pydantic_object.schemaDict)).lookup "title" = none
    ∧ (delKey "type" (delKey "title" p.pydantic_object.schemaDict)).lookup "type" = none
    ∧ (delKey "type" (delKey "title" p.pydantic_object.schemaDict)).lookup "properties"
        = p.pydantic_object.schemaDict.lookup "properties"
    ∧ strContains p.get_format_instructions
        (json_dumps (ofFields (delKey "type" (delKey "title" p.pydantic_object.schemaDict))))
    ∧ strContains p.get_format_instructions
        (json_dumps (ofFields (p.pydantic_object.fields.map fun f => (f.name, fieldSchema f)))) := by
  have h1 : p.get_format_instructions
      = instrHead
        ++ json_dumps (ofFields (delKey "type" (delKey "title" p.pydantic_object.schemaDict)))
        ++ instrTail := by
    simp only [PydanticOutputParser.get_format_instructions, List.map_id]
    rw [if_pos (hasKey_title_schemaDict p.pydantic_object),
      if_pos (hasKey_type_delKey_title p.pydantic_object)]
  have hred : delKey "type" (delKey "title" p.pydantic_object.schemaDict)
      = ("properties", ofFields (p.pydantic_object.fields.map fun f => (f.name, fieldSchema f)))
        :: (if (p.pydantic_object.fields.filter fun f => f.required) = [] then []
            else [("required", ofElems ((p.pydantic_object.fields.filter
              fun f => f.required).map fun f => JValue.jstr f.name))]) := by
    by_cases hreq : (p.pydantic_object.fields.filter fun f => f.required) = [] <;>
      simp [delKey, PydClass.schemaDict, List.filter_append, hreq]
  refine ⟨h1, ?_, lookup_delKey_self _ _, ?_, strContains_build _ _ instrHead instrTail h1, ?_⟩
  · rw [lookup_delKey_other "type" "title" (by decide), lookup_delKey_self]
  · rw [lookup_delKey_other "type" "properties" (by decide),
      lookup_delKey_other "title" "properties" (by decide)]
  · rw [h1, hred]
    by_cases hreq : (p.pydantic_object.fields.filter fun f => f.required) = []
    · rw [if_pos hreq]
      refine ⟨instrHead.data ++ (lbChar :: dumpKey "properties" ++ [':', ' ']),
        dumpA .objTail JValue.jobjNil ++ instrTail.data, ?_⟩
      show _ = (instrHead ++ json_dumps (.jobjCons "properties"
        (ofFields (p.pydantic_object.fields.map fun f => (f.name, fieldSchema f)))
          JValue.jobjNil) ++ instrTail).data
      simp [String.data_append, json_dumps, dumpA]
    · rw [if_neg hreq]
      refine ⟨instrHead.data ++ (lbChar :: dumpKey "properties" ++ [':', ' ']),
        dumpA .objTail (.jobjCons "required" (ofElems ((p.pydantic_object.fields.filter
          fun f => f.required).map fun f => JValue.jstr f.name)) .jobjNil)
          ++ instrTail.data, ?_⟩
      show _ = (instrHead ++ json_dumps (.jobjCons "properties"
        (ofFields (p.pydantic_object.fields.map fun f => (f.name, fieldSchema f)))
          (.jobjCons "required" (ofElems ((p.pydantic_object.fields.filter
            fun f => f.required).map fun f => JValue.jstr f.name)) .jobjNil)) ++ instrTail).data
      simp [String.data_append, json_dumps, dumpA]
